import Mathlib

/-!
Shallow embedding of the adler32-go C sources (`src/adler32_simple.c`,
`src/adler32_block.c`, `src/adler32_neon.c`).  All three files define a
function `uint32_t adler32_neon(const uint8_t *data, size_t len)`; we embed
them in the namespaces `Simple`, `Block` and `Neon` respectively.  A byte
buffer is modelled as a `List Nat` whose elements are the byte values
(theorems carry the hypothesis `b < 256` where `uint8_t` matters).  `uint32_t`
arithmetic is modelled by explicit `% U32`, `size_t`/`uint64_t` arithmetic by
explicit `% U64`; unsigned subtraction `a - b` at type `uint64_t` is modelled
as `(a + U64 - b) % U64`, which agrees with C for all `a, b < U64`.
C `while` loops are modelled as fuel recursion; every call site passes a fuel
that is an upper bound on the iteration count (each loop body strictly
decreases the quantity the fuel bounds), so the fuel never runs out and the
embedding computes exactly what the loop computes.
-/

set_option maxRecDepth 40000

namespace Adler32

/-- `#define MOD_ADLER 65521` (all three source files). -/
def MOD_ADLER : Nat := 65521

/-- `2^32`, the modulus of `uint32_t` arithmetic. -/
def U32 : Nat := 4294967296

/-- `2^64`, the modulus of `size_t`/`uint64_t` arithmetic (64-bit target). -/
def U64 : Nat := 18446744073709551616

/-- Packing of the result, `return (s2 << 16) | s1;` at `uint32_t`. -/
def pack (s2 s1 : Nat) : Nat := (((s2 <<< 16) % U32) ||| s1) % U32

/-- One iteration of the scalar loop of `adler32_simple.c` lines 12-15:
`s1 = (s1 + data[i]) % MOD_ADLER; s2 = (s2 + s1) % MOD_ADLER;`
with the additions performed at `uint32_t`. -/
def scalarStep (s : Nat × Nat) (b : Nat) : Nat × Nat :=
  let s1 := ((s.1 + b) % U32) % MOD_ADLER
  let s2 := ((s.2 + s1) % U32) % MOD_ADLER
  (s1, s2)

/-- One iteration of the unreduced accumulation loops of `adler32_block.c`
(lines 29-32 and 41-44): `s1 += b; s2 += s1;` at `uint32_t`. -/
def rawStep (s : Nat × Nat) (b : Nat) : Nat × Nat :=
  let s1 := (s.1 + b) % U32
  let s2 := (s.2 + s1) % U32
  (s1, s2)

/-- The same accumulation `s1 += b; s2 += s1;` on unbounded naturals
(no `2^32` wrap); used to state that the C loop never wraps. -/
def rawN (s : Nat × Nat) (b : Nat) : Nat × Nat :=
  (s.1 + b, s.2 + s.1 + b)

/-- Modelled from the spec (§4.1): one step of the ideal Adler-32 recurrence,
`s1 = (s1 + b) mod 65521; s2 = (s2 + s1) mod 65521` on unbounded naturals.
Clearly named spec-side definition, to be compared with the code-side ones. -/
def specStep (s : Nat × Nat) (b : Nat) : Nat × Nat :=
  let s1 := (s.1 + b) % MOD_ADLER
  let s2 := (s.2 + s1) % MOD_ADLER
  (s1, s2)

/-- Modelled from the spec (§4.1): the full ideal Adler-32 checksum,
seed `(s1, s2) = (1, 0)`, fold each byte left-to-right, pack `(s2 << 16) | s1`. -/
def specAdler (data : List Nat) : Nat :=
  let s := data.foldl specStep (1, 0)
  pack s.2 s.1

/-- Positionally weighted byte sum `Σ byte[k] * (n - k)` of a list of
length `n`; the closed form of the unreduced `s2` accumulation. -/
def wsum : List Nat → Nat
  | [] => 0
  | b :: t => (t.length + 1) * b + wsum t

/-- Modelled from the spec (§4.3): the super-block `s2` reconciliation exactly
as the spec words it, using the value `s1Entering` that `s1` had *before* the
block began: `s2 = (s2 + block_s2 + block_len × s1_entering −
block_s1 × (block_len + 1) / 2) mod 65521`.  Stated for comparison with the
code-side update `Neon.s2Update` (which uses the already-updated `s1`). -/
def specS2UpdateEntering (s2 blockS2 blockLen s1Entering blockS1 : Nat) : Nat :=
  (s2 + blockS2 + blockLen * s1Entering - blockS1 * (blockLen + 1) / 2) % MOD_ADLER

namespace Simple

/-- Embedding of `adler32_simple.c`, `adler32_neon` (lines 7-18). -/
def adler32_neon (data : List Nat) : Nat :=
  let s := data.foldl scalarStep (1, 0)
  pack s.2 s.1

end Simple

/-- `const size_t BLOCK_SIZE = 5552;` (`adler32_block.c` line 21,
`adler32_neon.c` line 38). -/
def BLOCK_SIZE : Nat := 5552

namespace Block

/-- The block loop of `adler32_block.c` lines 25-37: for each of the
`blocks` full blocks, accumulate 5552 bytes unreduced, then reduce both
accumulators mod 65521.  Returns the accumulator pair and the unconsumed
suffix of the input (the C code reads block `k` at `data + k*BLOCK_SIZE`;
consuming the list via `take`/`drop` reads exactly the same bytes). -/
def blockLoop : Nat → Nat × Nat → List Nat → (Nat × Nat) × List Nat
  | 0, s, l => (s, l)
  | n + 1, s, l =>
    let r := (l.take BLOCK_SIZE).foldl rawStep s
    blockLoop n (r.1 % MOD_ADLER, r.2 % MOD_ADLER) (l.drop BLOCK_SIZE)

/-- Embedding of `adler32_block.c`, `adler32_neon` (lines 5-51). -/
def adler32_neon (data : List Nat) : Nat :=
  if data.length < 16 then
    let s := data.foldl scalarStep (1, 0)
    pack s.2 s.1
  else
    let blocks := data.length / BLOCK_SIZE
    let remaining := data.length % BLOCK_SIZE
    let r := blockLoop blocks (1, 0) data
    let t := (r.2.take remaining).foldl rawStep r.1
    pack (t.2 % MOD_ADLER) (t.1 % MOD_ADLER)

end Block

namespace Neon

/-- `const size_t NEON_CHUNK_SIZE = 16;` (`adler32_neon.c` line 39). -/
def NEON_CHUNK_SIZE : Nat := 16

/-- A `uint32x4_t` NEON register: four 32-bit lanes. -/
structure Vec4 where
  x0 : Nat
  x1 : Nat
  x2 : Nat
  x3 : Nat

/-- `vdupq_n_u32 n`. -/
def vdup (n : Nat) : Vec4 := ⟨n, n, n, n⟩

/-- `vaddq_u32`, lanewise `uint32_t` addition. -/
def vadd (a b : Vec4) : Vec4 :=
  ⟨(a.x0 + b.x0) % U32, (a.x1 + b.x1) % U32, (a.x2 + b.x2) % U32, (a.x3 + b.x3) % U32⟩

/-- `vmulq_u32`, lanewise `uint32_t` multiplication. -/
def vmul (a b : Vec4) : Vec4 :=
  ⟨(a.x0 * b.x0) % U32, (a.x1 * b.x1) % U32, (a.x2 * b.x2) % U32, (a.x3 * b.x3) % U32⟩

/-- Byte `l[j]` of the current read position (C reads `data[i + j]` through
a pointer; the embedding indexes the current suffix of the buffer). -/
def nth (l : List Nat) (j : Nat) : Nat := l.getD j 0

/-- Four consecutive bytes `l[j..j+3]` widened to 32-bit lanes: the result of
`vmovl`-widening one quarter of the `vld1q_u8` load (lines 51-63). -/
def vload (l : List Nat) (j : Nat) : Vec4 :=
  ⟨nth l j, nth l (j + 1), nth l (j + 2), nth l (j + 3)⟩

/-- One iteration of the inner chunk loop of `adler32_neon.c` lines 49-80:
load 16 bytes as four 4-lane groups, add each group into `block_s1`, and add
each group times its group weight (16, 12, 8, 4) into `block_s2`. -/
def chunkStep (acc : Vec4 × Vec4) (l : List Nat) : Vec4 × Vec4 :=
  let d1 := vload l 0
  let d2 := vload l 4
  let d3 := vload l 8
  let d4 := vload l 12
  let bs1 := vadd (vadd (vadd (vadd acc.1 d1) d2) d3) d4
  let bs2 := vadd (vadd (vadd (vadd acc.2 (vmul d1 (vdup 16))) (vmul d2 (vdup 12)))
      (vmul d3 (vdup 8))) (vmul d4 (vdup 4))
  (bs1, bs2)

/-- The inner `while (block_len >= NEON_CHUNK_SIZE)` loop (lines 49-80),
as fuel recursion.  State: remaining `block_len`, the global byte index `i`,
the current suffix `l` of the buffer (equal to `data` dropped `i` times, the
C pointer `data + i`), and the two accumulator registers.  Each iteration
consumes 16 bytes, so any fuel `≥ block_len / 16` computes the loop exactly. -/
def chunkLoop : Nat → Nat → Nat → List Nat → Vec4 × Vec4 → (Vec4 × Vec4) × Nat × List Nat × Nat
  | 0, bl, i, l, acc => (acc, i, l, bl)
  | f + 1, bl, i, l, acc =>
    if NEON_CHUNK_SIZE ≤ bl then
      chunkLoop f (bl - NEON_CHUNK_SIZE) (i + NEON_CHUNK_SIZE) (l.drop NEON_CHUNK_SIZE)
        (chunkStep acc l)
    else (acc, i, l, bl)

/-- Horizontal lane sum (lines 83-86), `uint32_t` additions left to right. -/
def hsum (v : Vec4) : Nat := ((((v.x0 + v.x1) % U32) + v.x2) % U32 + v.x3) % U32

/-- The scalar `s2` update of line 91, with `s1` the already-updated scalar
`s1` of line 89: `s2 = (s2 + sum_s2 + BLOCK_SIZE * s1 - sum_s1 * (BLOCK_SIZE + 1) / 2)
% MOD_ADLER`.  `s2 + sum_s2` is a `uint32_t` addition; `BLOCK_SIZE` has type
`size_t`, so the rest of the expression is 64-bit, and the subtraction wraps
mod `2^64` (it really does underflow for many inputs). -/
def s2Update (s2 sum_s2 s1 sum_s1 : Nat) : Nat :=
  (((s2 + sum_s2) % U32 + BLOCK_SIZE * s1) % U64 + U64
      - sum_s1 * (BLOCK_SIZE + 1) % U64 / 2) % U64 % MOD_ADLER

/-- The outer `while (len >= BLOCK_SIZE)` loop of lines 41-94, as fuel
recursion.  State: remaining `len`, byte index `i`, current buffer suffix
`l` (the C pointer `data + i`), scalar `s1`, `s2`.  Each iteration consumes
5552 bytes of `len`, so any fuel `≥ len / 5552` computes the loop exactly.
Returns `(len, i, s1, s2)`. -/
def blockLoop : Nat → Nat → Nat → List Nat → Nat → Nat → Nat × Nat × Nat × Nat
  | 0, len, i, _, s1, s2 => (len, i, s1, s2)
  | f + 1, len, i, l, s1, s2 =>
    if BLOCK_SIZE ≤ len then
      let c := chunkLoop BLOCK_SIZE BLOCK_SIZE i l (vdup 0, vdup 0)
      let sum_s1 := hsum c.1.1
      let sum_s2 := hsum c.1.2
      let s1' := ((s1 + sum_s1) % U32) % MOD_ADLER
      let s2' := s2Update s2 sum_s2 s1' sum_s1
      blockLoop f (len - BLOCK_SIZE) c.2.1 c.2.2.1 s1' s2'
    else (len, i, s1, s2)

/-- The trailing `while (i < len)` loop of lines 98-102 (note: `len` here is
the value left after the block loop decremented it), as fuel recursion; each
iteration increases `i` by one, so any fuel `≥ len` computes the loop exactly. -/
def tailLoop (data : List Nat) : Nat → Nat → Nat → Nat → Nat → Nat × Nat
  | 0, _, _, s1, s2 => (s1, s2)
  | f + 1, i, len, s1, s2 =>
    if i < len then
      let s1' := ((s1 + nth data i) % U32) % MOD_ADLER
      let s2' := ((s2 + s1') % U32) % MOD_ADLER
      tailLoop data f (i + 1) len s1' s2'
    else (s1, s2)

/-- Embedding of `adler32_neon.c`, `adler32_neon` (lines 5-105). -/
def adler32_neon (data : List Nat) : Nat :=
  if data.length = 0 then 1
  else
    if 16 ≤ data.length then
      let r := blockLoop data.length data.length 0 data 1 0
      let t := tailLoop data data.length r.2.1 r.1 r.2.2.1 r.2.2.2
      pack t.2 t.1
    else
      let t := tailLoop data data.length 0 data.length 1 0
      pack t.2 t.1

end Neon

end Adler32


/-! ### Helper lemmas -/

namespace Adler32

theorem modAdler_eq : MOD_ADLER = 65521 := rfl

theorem U32_eq : U32 = 4294967296 := rfl

theorem mod_adler_pos : 0 < MOD_ADLER := by rw [modAdler_eq]; omega

theorem scalarStep_def (a b c : Nat) :
    scalarStep (a, b) c = (((a + c) % U32) % MOD_ADLER,
      ((b + ((a + c) % U32) % MOD_ADLER) % U32) % MOD_ADLER) := rfl

theorem rawStep_def (a b c : Nat) :
    rawStep (a, b) c = ((a + c) % U32, (b + (a + c) % U32) % U32) := rfl

theorem rawN_def (a b c : Nat) : rawN (a, b) c = (a + c, b + a + c) := rfl

theorem specStep_def (a b c : Nat) :
    specStep (a, b) c = ((a + c) % MOD_ADLER, (b + (a + c) % MOD_ADLER) % MOD_ADLER) := rfl

/-- The ideal recurrence keeps both accumulators reduced. -/
theorem specFold_lt (l : List Nat) : ∀ s : Nat × Nat, s.1 < MOD_ADLER → s.2 < MOD_ADLER →
    (l.foldl specStep s).1 < MOD_ADLER ∧ (l.foldl specStep s).2 < MOD_ADLER := by
  induction l with
  | nil => intro s h1 h2; exact ⟨h1, h2⟩
  | cons b t ih =>
    intro s h1 h2
    simp only [List.foldl_cons]
    exact ih (specStep s b) (Nat.mod_lt _ mod_adler_pos) (Nat.mod_lt _ mod_adler_pos)

/-- On reduced states and byte-sized inputs the `uint32_t` additions of the
scalar engine cannot wrap, so its loop body agrees with the ideal recurrence. -/
theorem scalarFold_eq_specFold (l : List Nat) : ∀ s : Nat × Nat, (∀ b ∈ l, b < 256) →
    s.1 < MOD_ADLER → s.2 < MOD_ADLER →
    l.foldl scalarStep s = l.foldl specStep s := by
  induction l with
  | nil => intro s _ _ _; rfl
  | cons b t ih =>
    intro s hb h1 h2
    have hb0 : b < 256 := hb b (List.mem_cons_self _ _)
    obtain ⟨a, c⟩ := s
    simp only at h1 h2
    have e1 : (a + b) % U32 = a + b := by
      apply Nat.mod_eq_of_lt
      rw [modAdler_eq] at h1
      rw [U32_eq]; omega
    have h1' : (a + b) % MOD_ADLER < MOD_ADLER := Nat.mod_lt _ mod_adler_pos
    have e2 : (c + (a + b) % MOD_ADLER) % U32 = c + (a + b) % MOD_ADLER := by
      apply Nat.mod_eq_of_lt
      rw [modAdler_eq] at h2 h1' ⊢
      rw [U32_eq]; omega
    have hstep : scalarStep (a, c) b = specStep (a, c) b := by
      rw [scalarStep_def, specStep_def, e1, e2]
    simp only [List.foldl_cons, hstep]
    exact ih (specStep (a, c) b) (fun x hx => hb x (List.mem_cons_of_mem _ hx))
      (Nat.mod_lt _ mod_adler_pos) (Nat.mod_lt _ mod_adler_pos)

/-- Closed form of the unreduced accumulation on unbounded naturals. -/
theorem rawNFold_closed (l : List Nat) : ∀ s1 s2 : Nat,
    l.foldl rawN (s1, s2) = (s1 + l.sum, s2 + l.length * s1 + wsum l) := by
  induction l with
  | nil => intro s1 s2; simp [wsum]
  | cons b t ih =>
    intro s1 s2
    simp only [List.foldl_cons, rawN_def, List.sum_cons, List.length_cons, wsum]
    rw [ih]
    simp only [Prod.mk.injEq]
    constructor
    · omega
    · ring

/-- Reducing the unreduced accumulation at the end agrees with reducing after
every byte: the ideal recurrence is the image mod 65521 of `rawN`. -/
theorem specFold_eq_rawNFold_mod (l : List Nat) : ∀ s1 s2 : Nat,
    l.foldl specStep (s1 % MOD_ADLER, s2 % MOD_ADLER) =
      ((l.foldl rawN (s1, s2)).1 % MOD_ADLER, (l.foldl rawN (s1, s2)).2 % MOD_ADLER) := by
  induction l with
  | nil => intro s1 s2; rfl
  | cons b t ih =>
    intro s1 s2
    have hstep : specStep (s1 % MOD_ADLER, s2 % MOD_ADLER) b =
        ((s1 + b) % MOD_ADLER, (s2 + s1 + b) % MOD_ADLER) := by
      rw [specStep_def, Nat.mod_add_mod, Nat.add_mod_mod, Nat.mod_add_mod, ← Nat.add_assoc]
    simp only [List.foldl_cons, hstep, rawN_def]
    exact ih (s1 + b) (s2 + s1 + b)

/-- As long as the final (= largest) unreduced values stay below `2^32`, the
`uint32_t` accumulation of the C code computes the unreduced naturals exactly. -/
theorem rawFold_eq_rawNFold (l : List Nat) : ∀ s1 s2 : Nat,
    s1 + l.sum < U32 → s2 + l.length * s1 + wsum l < U32 →
    l.foldl rawStep (s1, s2) = l.foldl rawN (s1, s2) := by
  induction l with
  | nil => intro s1 s2 _ _; rfl
  | cons b t ih =>
    intro s1 s2 hb1 hb2
    simp only [List.sum_cons, List.length_cons, wsum] at hb1 hb2
    have hs1 : s1 ≤ (t.length + 1) * s1 := Nat.le_mul_of_pos_left s1 (by omega)
    have hbb : b ≤ (t.length + 1) * b := Nat.le_mul_of_pos_left b (by omega)
    have e1 : (s1 + b) % U32 = s1 + b := Nat.mod_eq_of_lt (by omega)
    have e2 : (s2 + (s1 + b)) % U32 = s2 + (s1 + b) := Nat.mod_eq_of_lt (by omega)
    have hstep : rawStep (s1, s2) b = rawN (s1, s2) b := by
      rw [rawStep_def, rawN_def, e1, e2, ← Nat.add_assoc]
    simp only [List.foldl_cons, hstep, rawN_def]
    apply ih
    · omega
    · have key : s2 + s1 + b + t.length * (s1 + b) + wsum t =
          s2 + (t.length + 1) * s1 + ((t.length + 1) * b + wsum t) := by ring
      omega

/-- A list of bytes sums to at most `255` per element. -/
theorem sum_le_255 (l : List Nat) (h : ∀ b ∈ l, b < 256) : l.sum ≤ 255 * l.length := by
  induction l with
  | nil => simp
  | cons b t ih =>
    have hb : b < 256 := h b (List.mem_cons_self _ _)
    have ht := ih (fun x hx => h x (List.mem_cons_of_mem _ hx))
    simp only [List.sum_cons, List.length_cons]
    have : 255 * (t.length + 1) = 255 * t.length + 255 := by ring
    omega

/-- The weighted byte sum is at most `255 · n(n+1)/2` (stated doubled to stay
division-free). -/
theorem wsum_le (l : List Nat) (h : ∀ b ∈ l, b < 256) :
    2 * wsum l ≤ 255 * (l.length * (l.length + 1)) := by
  induction l with
  | nil => simp [wsum]
  | cons b t ih =>
    have hb : b < 256 := h b (List.mem_cons_self _ _)
    have ht := ih (fun x hx => h x (List.mem_cons_of_mem _ hx))
    simp only [wsum, List.length_cons]
    have h1 : 2 * ((t.length + 1) * b) ≤ 2 * ((t.length + 1) * 255) :=
      Nat.mul_le_mul (Nat.le_refl 2) (Nat.mul_le_mul (Nat.le_refl _) (by omega))
    have key : 2 * ((t.length + 1) * 255) + 255 * (t.length * (t.length + 1)) =
        255 * ((t.length + 1) * (t.length + 1 + 1)) := by ring
    omega

/-- The overflow bound behind `BLOCK_SIZE = 5552`: starting from reduced
accumulators, at most 5552 bytes can be accumulated unreduced without the
(final, hence any intermediate) values reaching `2^32`. -/
theorem rawN_bounds (l : List Nat) (s1 s2 : Nat) (hlen : l.length ≤ 5552)
    (hbytes : ∀ b ∈ l, b < 256) (h1 : s1 < MOD_ADLER) (h2 : s2 < MOD_ADLER) :
    s1 + l.sum < U32 ∧ s2 + l.length * s1 + wsum l < U32 := by
  have hsum := sum_le_255 l hbytes
  have hws := wsum_le l hbytes
  have hsum' : 255 * l.length ≤ 255 * 5552 := Nat.mul_le_mul (Nat.le_refl _) hlen
  rw [modAdler_eq] at h1 h2
  have hmul : l.length * s1 ≤ 5552 * 65520 := Nat.mul_le_mul hlen (by omega)
  have hws' : 255 * (l.length * (l.length + 1)) ≤ 255 * (5552 * 5553) :=
    Nat.mul_le_mul (Nat.le_refl _) (Nat.mul_le_mul hlen (by omega))
  rw [U32_eq]
  omega

/-- One 5552-byte (or shorter) block of the C code, reduced at its end, agrees
with the ideal per-byte recurrence. -/
theorem rawFold_mod_eq_specFold (l : List Nat) (s1 s2 : Nat) (hlen : l.length ≤ 5552)
    (hbytes : ∀ b ∈ l, b < 256) (h1 : s1 < MOD_ADLER) (h2 : s2 < MOD_ADLER) :
    ((l.foldl rawStep (s1, s2)).1 % MOD_ADLER, (l.foldl rawStep (s1, s2)).2 % MOD_ADLER) =
      l.foldl specStep (s1, s2) := by
  obtain ⟨hb1, hb2⟩ := rawN_bounds l s1 s2 hlen hbytes h1 h2
  rw [rawFold_eq_rawNFold l s1 s2 hb1 hb2]
  rw [← specFold_eq_rawNFold_mod l s1 s2, Nat.mod_eq_of_lt h1, Nat.mod_eq_of_lt h2]

end Adler32

namespace Adler32

/-- For in-range halves, packing is positional: `(s2 << 16) | s1 = s2·2^16 + s1`. -/
theorem pack_val (s2 s1 : Nat) (h2 : s2 < 65536) (h1 : s1 < 65536) :
    pack s2 s1 = s2 * 65536 + s1 := by
  have h16 : (2 : Nat) ^ 16 = 65536 := by norm_num
  have hs : s2 <<< 16 = s2 * 65536 := by rw [Nat.shiftLeft_eq, h16]
  have hmod : (s2 * 65536) % U32 = s2 * 65536 := Nat.mod_eq_of_lt (by rw [U32_eq]; omega)
  have hor := Nat.mul_add_lt_is_or (show s1 < 2 ^ 16 by rw [h16]; omega) s2
  rw [h16, Nat.mul_comm 65536 s2] at hor
  rw [pack, hs, hmod, ← hor]
  exact Nat.mod_eq_of_lt (by rw [U32_eq]; omega)

/-- Extracting the two halves of a packed result with reduced components. -/
theorem pack_parts (s2 s1 : Nat) (h2 : s2 < MOD_ADLER) (h1 : s1 < MOD_ADLER) :
    pack s2 s1 % 65536 = s1 ∧ pack s2 s1 >>> 16 = s2 := by
  rw [modAdler_eq] at h1 h2
  rw [pack_val s2 s1 (by omega) (by omega)]
  have h16 : (2 : Nat) ^ 16 = 65536 := by norm_num
  constructor
  · omega
  · rw [Nat.shiftRight_eq_div_pow, h16]; omega

end Adler32

namespace Adler32.Block

/-- Characterization of the block loop of `adler32_block.c`: running `n` full
blocks equals the ideal per-byte recurrence on the first `n·5552` bytes, and
leaves the rest of the input. -/
theorem blockLoop_eq : ∀ (n : Nat) (l : List Nat) (s : Nat × Nat), (∀ b ∈ l, b < 256) →
    s.1 < MOD_ADLER → s.2 < MOD_ADLER → n * BLOCK_SIZE ≤ l.length →
    blockLoop n s l =
      ((l.take (n * BLOCK_SIZE)).foldl specStep s, l.drop (n * BLOCK_SIZE)) := by
  intro n
  induction n with
  | zero => intro l s _ _ _ _; simp [blockLoop]
  | succ n ih =>
    intro l s hbytes h1 h2 hlen
    obtain ⟨a, c⟩ := s
    simp only at h1 h2
    simp only [BLOCK_SIZE] at hlen ⊢
    simp only [blockLoop, BLOCK_SIZE]
    have hsub : ∀ b ∈ l.take 5552, b < 256 := fun b hb => hbytes b (List.mem_of_mem_take hb)
    have hlen5 : (l.take 5552).length ≤ 5552 := by
      rw [List.length_take]
      have := Nat.min_le_left 5552 l.length
      omega
    have hmod := rawFold_mod_eq_specFold (l.take 5552) a c hlen5 hsub h1 h2
    rw [hmod]
    have hspec := specFold_lt (l.take 5552) (a, c) h1 h2
    have hdlen : n * 5552 ≤ (l.drop 5552).length := by
      rw [List.length_drop]; omega
    rw [ih (l.drop 5552) _ (fun b hb => hbytes b (List.mem_of_mem_drop hb))
      hspec.1 hspec.2 hdlen]
    have e : (n + 1) * 5552 = 5552 + n * 5552 := by ring
    rw [e, List.take_add, List.foldl_append, List.drop_drop]
    simp only [BLOCK_SIZE]

end Adler32.Block

namespace Adler32.Neon

/-- The `s2` update always ends reduced. -/
theorem s2Update_lt (a b c d : Nat) : s2Update a b c d < MOD_ADLER :=
  Nat.mod_lt _ mod_adler_pos

/-- If fewer than 5552 bytes remain, the outer block loop does nothing. -/
theorem blockLoop_idle (f len i : Nat) (l : List Nat) (s1 s2 : Nat) (h : len < BLOCK_SIZE) :
    blockLoop f len i l s1 s2 = (len, i, s1, s2) := by
  cases f with
  | zero => rfl
  | succ f =>
    simp only [blockLoop]
    rw [if_neg (by omega)]

/-- If the index has reached the (decremented) length, the tail loop does nothing. -/
theorem tailLoop_idle (data : List Nat) (f i len s1 s2 : Nat) (h : len ≤ i) :
    tailLoop data f i len s1 s2 = (s1, s2) := by
  cases f with
  | zero => rfl
  | succ f =>
    simp only [tailLoop]
    rw [if_neg (by omega)]

/-- The tail loop is the scalar recurrence on bytes `i, i+1, …, len-1`
(provided the fuel suffices and `len` is within the buffer). -/
theorem tailLoop_eq (data : List Nat) : ∀ (f i s1 s2 len : Nat), len ≤ data.length →
    len ≤ i + f →
    tailLoop data f i len s1 s2 =
      ((data.drop i).take (len - i)).foldl scalarStep (s1, s2) := by
  intro f
  induction f with
  | zero =>
    intro i s1 s2 len h1 h2
    have h0 : len - i = 0 := by omega
    rw [h0]
    simp [tailLoop]
  | succ f ih =>
    intro i s1 s2 len h1 h2
    by_cases hi : i < len
    · have hil : i < data.length := by omega
      have hnth : nth data i = data[i] := by
        simp [nth, List.getD_eq_getElem?_getD, List.getElem?_eq_getElem hil]
      simp only [tailLoop]
      rw [if_pos hi, hnth]
      rw [ih (i + 1) _ _ len h1 (by omega)]
      rw [List.drop_eq_getElem_cons hil]
      have hlen : len - i = (len - (i + 1)) + 1 := by omega
      rw [hlen, List.take_succ_cons, List.foldl_cons, scalarStep_def]
    · have h0 : len - i = 0 := by omega
      simp only [tailLoop]
      rw [if_neg hi, h0]
      simp

/-- The scalar accumulators stay reduced through the outer block loop. -/
theorem blockLoop_lt : ∀ (f len i : Nat) (l : List Nat) (s1 s2 : Nat),
    s1 < MOD_ADLER → s2 < MOD_ADLER →
    (blockLoop f len i l s1 s2).2.2.1 < MOD_ADLER ∧
      (blockLoop f len i l s1 s2).2.2.2 < MOD_ADLER := by
  intro f
  induction f with
  | zero => intro len i l s1 s2 h1 h2; exact ⟨h1, h2⟩
  | succ f ih =>
    intro len i l s1 s2 h1 h2
    simp only [blockLoop]
    by_cases h : BLOCK_SIZE ≤ len
    · rw [if_pos h]
      exact ih _ _ _ _ _ (Nat.mod_lt _ mod_adler_pos) (s2Update_lt _ _ _ _)
    · rw [if_neg h]
      exact ⟨h1, h2⟩

/-- The scalar accumulators stay reduced through the tail loop. -/
theorem tailLoop_lt (data : List Nat) : ∀ (f i len s1 s2 : Nat),
    s1 < MOD_ADLER → s2 < MOD_ADLER →
    (tailLoop data f i len s1 s2).1 < MOD_ADLER ∧
      (tailLoop data f i len s1 s2).2 < MOD_ADLER := by
  intro f
  induction f with
  | zero => intro i len s1 s2 h1 h2; exact ⟨h1, h2⟩
  | succ f ih =>
    intro i len s1 s2 h1 h2
    simp only [tailLoop]
    by_cases h : i < len
    · rw [if_pos h]
      exact ih _ _ _ _ (Nat.mod_lt _ mod_adler_pos) (Nat.mod_lt _ mod_adler_pos)
    · rw [if_neg h]
      exact ⟨h1, h2⟩

end Adler32.Neon

namespace Adler32

/-- The scalar engine keeps both accumulators reduced at every step. -/
theorem scalarFold_lt (l : List Nat) : ∀ s : Nat × Nat, s.1 < MOD_ADLER → s.2 < MOD_ADLER →
    (l.foldl scalarStep s).1 < MOD_ADLER ∧ (l.foldl scalarStep s).2 < MOD_ADLER := by
  induction l with
  | nil => intro s h1 h2; exact ⟨h1, h2⟩
  | cons b t ih =>
    intro s h1 h2
    simp only [List.foldl_cons]
    exact ih (scalarStep s b) (Nat.mod_lt _ mod_adler_pos) (Nat.mod_lt _ mod_adler_pos)

/-- `rawFold_mod_eq_specFold`, stated for a state pair. -/
theorem rawFold_mod_eq_specFold' (l : List Nat) (s : Nat × Nat) (hlen : l.length ≤ 5552)
    (hbytes : ∀ b ∈ l, b < 256) (h1 : s.1 < MOD_ADLER) (h2 : s.2 < MOD_ADLER) :
    ((l.foldl rawStep s).1 % MOD_ADLER, (l.foldl rawStep s).2 % MOD_ADLER) =
      l.foldl specStep s := by
  obtain ⟨a, c⟩ := s
  exact rawFold_mod_eq_specFold l a c hlen hbytes h1 h2

theorem one_lt_mod_adler : 1 < MOD_ADLER := by rw [modAdler_eq]; omega

end Adler32

namespace Adler32

/-- C3: for every byte sequence (any length, including 0), the scalar engine
`adler32_simple.c` computes exactly the Adler-32 recurrence: seed
`s1 = 1, s2 = 0`, fold each byte left-to-right with `s1 = (s1 + b) mod 65521`
then `s2 = (s2 + s1) mod 65521`, and return the packed `(s2 << 16) | s1`;
the function is total, with no error conditions or side effects. -/
theorem C3_scalar_engine_is_adler_recurrence (data : List Nat)
    (hbytes : ∀ b ∈ data, b < 256) :
    Simple.adler32_neon data = specAdler data := by
  simp only [Simple.adler32_neon, specAdler]
  rw [scalarFold_eq_specFold data (1, 0) hbytes one_lt_mod_adler mod_adler_pos]

/-- Witness for C3: the single byte 65, the spec §8 known vector
(`0x00420042`). -/
theorem C3_scalar_engine_is_adler_recurrence_witness :
    Simple.adler32_neon [65] = specAdler [65] ∧ Simple.adler32_neon [65] = 4325442 :=
  ⟨C3_scalar_engine_is_adler_recurrence [65] (by decide), by decide⟩

/-- C9: on the empty input every engine returns the packed seed
`(0 << 16) | 1 = 1`. -/
theorem C9_empty_input_returns_seed :
    Simple.adler32_neon [] = 1 ∧ Block.adler32_neon [] = 1 ∧ Neon.adler32_neon [] = 1 := by
  refine ⟨by decide, by decide, by decide⟩

/-- C10: for every input of length in `[16, 5552)`, the super-block loop of
the vector engine never runs (`len >= BLOCK_SIZE` fails at once, so no vector
arithmetic contributes), the tail loop folds every byte with the scalar
recurrence, and the vector engine returns exactly the scalar engine's result. -/
theorem C10_vector_engine_eq_scalar_below_one_block (data : List Nat)
    (h16 : 16 ≤ data.length) (hlt : data.length < 5552) :
    Neon.adler32_neon data = Simple.adler32_neon data := by
  have hne : ¬(data.length = 0) := by omega
  simp only [Neon.adler32_neon, if_neg hne, if_pos h16]
  rw [Neon.blockLoop_idle _ _ _ _ _ _ (by simp only [BLOCK_SIZE]; omega)]
  rw [Neon.tailLoop_eq data data.length 0 1 0 data.length (Nat.le_refl _) (by omega)]
  simp only [List.drop_zero, Nat.sub_zero, List.take_length, Simple.adler32_neon]

/-- Witness for C10 at the 16-byte input `0,1,…,15`. -/
theorem C10_vector_engine_eq_scalar_below_one_block_witness :
    Neon.adler32_neon (List.range 16) = Simple.adler32_neon (List.range 16) :=
  C10_vector_engine_eq_scalar_below_one_block (List.range 16) (by decide) (by decide)

end Adler32

namespace Adler32

/-- Sum of a constant list. -/
theorem sum_replicate_nat (n c : Nat) : (List.replicate n c).sum = n * c := by
  induction n with
  | zero => simp
  | succ n ih =>
    rw [List.replicate_succ, List.sum_cons, ih]
    ring

/-- Equation lemma for `wsum` on a cons cell. -/
theorem wsum_cons (b : Nat) (t : List Nat) : wsum (b :: t) = (t.length + 1) * b + wsum t := rfl

/-- Weighted sum of a constant list (stated doubled to stay division-free). -/
theorem wsum_replicate (n c : Nat) : 2 * wsum (List.replicate n c) = c * (n * (n + 1)) := by
  induction n with
  | zero => simp [wsum]
  | succ n ih =>
    rw [List.replicate_succ]
    simp only [wsum, List.length_replicate]
    have e : c * ((n + 1) * (n + 1 + 1)) = 2 * ((n + 1) * c) + c * (n * (n + 1)) := by ring
    omega

/-- Weighted sum of a zero list. -/
theorem wsum_replicate_zero (n : Nat) : wsum (List.replicate n 0) = 0 := by
  have := wsum_replicate n 0
  omega

/-- The weighted sum of a concatenation: each byte of the prefix gains the
length of the suffix in weight. -/
theorem wsum_append (l1 l2 : List Nat) :
    wsum (l1 ++ l2) = wsum l1 + l2.length * l1.sum + wsum l2 := by
  induction l1 with
  | nil => simp [wsum]
  | cons b t ih =>
    simp only [List.cons_append, wsum, List.append_eq, List.length_append, List.sum_cons]
    rw [ih]
    ring

end Adler32

namespace Adler32.Neon

/-- Reading inside the zero prefix gives byte 0. -/
theorem nth_replicate_zero_append (m j : Nat) (t : List Nat) (h : j < m) :
    nth (List.replicate m 0 ++ t) j = 0 := by
  simp [nth, List.getD_eq_getElem?_getD, List.getElem?_append, List.length_replicate, h,
    List.getElem?_replicate]

/-- A chunk of sixteen zero bytes leaves both accumulator registers unchanged
(the sixteen `uint32_t` lane additions all add 0 to in-range lanes). -/
theorem chunkStep_zeros (acc : Vec4 × Vec4) (l : List Nat)
    (hl : ∀ j, j < 16 → nth l j = 0)
    (h1 : acc.1.x0 < U32 ∧ acc.1.x1 < U32 ∧ acc.1.x2 < U32 ∧ acc.1.x3 < U32)
    (h2 : acc.2.x0 < U32 ∧ acc.2.x1 < U32 ∧ acc.2.x2 < U32 ∧ acc.2.x3 < U32) :
    chunkStep acc l = acc := by
  obtain ⟨⟨a0, a1, a2, a3⟩, ⟨b0, b1, b2, b3⟩⟩ := acc
  obtain ⟨ha0, ha1, ha2, ha3⟩ := h1
  obtain ⟨hb0, hb1, hb2, hb3⟩ := h2
  simp only at ha0 ha1 ha2 ha3 hb0 hb1 hb2 hb3
  have e0 := hl 0 (by omega)
  have e1 := hl 1 (by omega)
  have e2 := hl 2 (by omega)
  have e3 := hl 3 (by omega)
  have e4 := hl 4 (by omega)
  have e5 := hl 5 (by omega)
  have e6 := hl 6 (by omega)
  have e7 := hl 7 (by omega)
  have e8 := hl 8 (by omega)
  have e9 := hl 9 (by omega)
  have e10 := hl 10 (by omega)
  have e11 := hl 11 (by omega)
  have e12 := hl 12 (by omega)
  have e13 := hl 13 (by omega)
  have e14 := hl 14 (by omega)
  have e15 := hl 15 (by omega)
  simp only [chunkStep, vload, vadd, vmul, vdup] at *
  norm_num [e0, e1, e2, e3, e4, e5, e6, e7, e8, e9, e10, e11, e12, e13, e14, e15]
  rw [U32_eq] at ha0 ha1 ha2 ha3 hb0 hb1 hb2 hb3
  simp only [Prod.mk.injEq, Vec4.mk.injEq, U32_eq]
  refine ⟨⟨?_, ?_, ?_, ?_⟩, ?_, ?_, ?_, ?_⟩ <;> omega

/-- One unfolding of the inner chunk loop. -/
theorem chunkLoop_step (f bl i : Nat) (l : List Nat) (acc : Vec4 × Vec4)
    (h : NEON_CHUNK_SIZE ≤ bl) :
    chunkLoop (f + 1) bl i l acc =
      chunkLoop f (bl - NEON_CHUNK_SIZE) (i + NEON_CHUNK_SIZE)
        (l.drop NEON_CHUNK_SIZE) (chunkStep acc l) := by
  simp only [chunkLoop]
  rw [if_pos h]

/-- The chunk loop over a run of zero bytes: the accumulators are untouched,
the index advances by the whole (16-divisible) block length. -/
theorem chunkLoop_zeros : ∀ (f bl i m : Nat) (t : List Nat) (acc : Vec4 × Vec4),
    16 ∣ bl → bl ≤ f → bl ≤ m →
    (acc.1.x0 < U32 ∧ acc.1.x1 < U32 ∧ acc.1.x2 < U32 ∧ acc.1.x3 < U32) →
    (acc.2.x0 < U32 ∧ acc.2.x1 < U32 ∧ acc.2.x2 < U32 ∧ acc.2.x3 < U32) →
    chunkLoop f bl i (List.replicate m 0 ++ t) acc =
      (acc, i + bl, List.replicate (m - bl) 0 ++ t, 0) := by
  intro f
  induction f with
  | zero =>
    intro bl i m t acc hd hf hm h1 h2
    have hbl0 : bl = 0 := by omega
    subst hbl0
    simp [chunkLoop]
  | succ f ih =>
    intro bl i m t acc hd hf hm h1 h2
    by_cases hbl : NEON_CHUNK_SIZE ≤ bl
    · have h16 : (16 : Nat) ≤ bl := hbl
      rw [chunkLoop_step f bl i _ acc hbl]
      rw [chunkStep_zeros acc _ (fun j hj => nth_replicate_zero_append m j t (by omega)) h1 h2]
      have hdrop : (List.replicate m 0 ++ t).drop NEON_CHUNK_SIZE =
          List.replicate (m - 16) 0 ++ t := by
        rw [show NEON_CHUNK_SIZE = 16 from rfl]
        rw [List.drop_append_of_le_length (by simp; omega), List.drop_replicate]
      rw [hdrop]
      rw [show NEON_CHUNK_SIZE = 16 from rfl]
      rw [ih (bl - 16) (i + 16) (m - 16) t acc (by omega) (by omega) (by omega) h1 h2]
      have u1 : i + 16 + (bl - 16) = i + bl := by omega
      have u2 : m - 16 - (bl - 16) = m - bl := by omega
      rw [u1, u2]
    · have hbl0 : bl = 0 := by
        rw [show NEON_CHUNK_SIZE = 16 from rfl] at hbl
        omega
      subst hbl0
      simp only [chunkLoop]
      rw [if_neg hbl]
      simp

/-- One unfolding of the outer super-block loop. -/
theorem blockLoop_step (f len i : Nat) (l : List Nat) (s1 s2 : Nat) (h : BLOCK_SIZE ≤ len) :
    blockLoop (f + 1) len i l s1 s2 =
      blockLoop f (len - BLOCK_SIZE)
        (chunkLoop BLOCK_SIZE BLOCK_SIZE i l (vdup 0, vdup 0)).2.1
        (chunkLoop BLOCK_SIZE BLOCK_SIZE i l (vdup 0, vdup 0)).2.2.1
        (((s1 + hsum (chunkLoop BLOCK_SIZE BLOCK_SIZE i l (vdup 0, vdup 0)).1.1) % U32) % MOD_ADLER)
        (s2Update s2 (hsum (chunkLoop BLOCK_SIZE BLOCK_SIZE i l (vdup 0, vdup 0)).1.2)
          (((s1 + hsum (chunkLoop BLOCK_SIZE BLOCK_SIZE i l (vdup 0, vdup 0)).1.1) % U32) % MOD_ADLER)
          (hsum (chunkLoop BLOCK_SIZE BLOCK_SIZE i l (vdup 0, vdup 0)).1.1)) := by
  simp only [blockLoop]
  rw [if_pos h]

/-- `blockLoop_step` with the chunk-loop result supplied as an explicit tuple. -/
theorem blockLoop_step_tuple (f len i : Nat) (l : List Nat) (s1 s2 : Nat) (a1 a2 : Vec4)
    (i2 : Nat) (l2 : List Nat) (bl2 : Nat) (h : BLOCK_SIZE ≤ len)
    (hc : chunkLoop BLOCK_SIZE BLOCK_SIZE i l (vdup 0, vdup 0) = ((a1, a2), i2, l2, bl2)) :
    blockLoop (f + 1) len i l s1 s2 =
      blockLoop f (len - BLOCK_SIZE) i2 l2
        (((s1 + hsum a1) % U32) % MOD_ADLER)
        (s2Update s2 (hsum a2) (((s1 + hsum a1) % U32) % MOD_ADLER) (hsum a1)) := by
  rw [blockLoop_step f len i l s1 s2 h, hc]

end Adler32.Neon

namespace Adler32.Neon

/-- The chunk loop over the 5552-byte buffer `1, 0, …, 0`: only lane 0 of the
first group of the first chunk is nonzero, so `block_s1 = ⟨1,0,0,0⟩` and
`block_s2 = ⟨16,0,0,0⟩` (the byte got group weight 16). -/
theorem chunkLoop_one_leading :
    chunkLoop BLOCK_SIZE BLOCK_SIZE 0 (1 :: List.replicate 5551 0) (vdup 0, vdup 0) =
      ((⟨1, 0, 0, 0⟩, ⟨16, 0, 0, 0⟩), 5552, ([] : List Nat), 0) := by
  rw [show BLOCK_SIZE = 5551 + 1 from rfl]
  rw [chunkLoop_step 5551 (5551 + 1) 0 _ _ (by decide)]
  have hcs : chunkStep (vdup 0, vdup 0) (1 :: List.replicate 5551 0) =
      ((⟨1, 0, 0, 0⟩ : Vec4), (⟨16, 0, 0, 0⟩ : Vec4)) := by rfl
  rw [hcs]
  have hdrop : (1 :: List.replicate 5551 0).drop NEON_CHUNK_SIZE =
      List.replicate 5536 0 ++ [] := by
    rw [List.append_nil]
    rfl
  rw [hdrop]
  have u1 : 5551 + 1 - NEON_CHUNK_SIZE = 5536 := by decide
  have u2 : 0 + NEON_CHUNK_SIZE = 16 := by decide
  rw [u1, u2]
  rw [chunkLoop_zeros 5551 5536 16 5536 [] _ (by decide) (by omega) (by omega)
    (by decide) (by decide)]
  norm_num

/-- The chunk loop over a full block of zeros (with arbitrary unread suffix):
both accumulators stay zero and the index advances by 5552. -/
theorem chunkLoop_zero_block (t : List Nat) :
    chunkLoop BLOCK_SIZE BLOCK_SIZE 0 (List.replicate 5552 0 ++ t) (vdup 0, vdup 0) =
      ((vdup 0, vdup 0), 5552, t, 0) := by
  rw [chunkLoop_zeros BLOCK_SIZE BLOCK_SIZE 0 5552 t _ (by decide) (Nat.le_refl _)
    (by decide) (by decide) (by decide)]
  simp only [BLOCK_SIZE]
  norm_num

/-- The vector engine on the 5552-byte buffer `1, 0, …, 0` returns
`(8344 << 16) | 2` (the scalar engine returns `(11104 << 16) | 2`). -/
theorem neon_one_leading :
    adler32_neon (1 :: List.replicate 5551 0) = pack 8344 2 := by
  have hlen : (1 :: List.replicate 5551 0).length = 5552 := by
    rw [List.length_cons, List.length_replicate]
  simp only [adler32_neon, hlen]
  rw [if_neg (by norm_num), if_pos (by norm_num)]
  rw [show (5552 : Nat) = 5551 + 1 from rfl]
  rw [blockLoop_step_tuple 5551 (5551 + 1) 0 _ 1 0 ⟨1, 0, 0, 0⟩ ⟨16, 0, 0, 0⟩ 5552 [] 0
    (by decide) chunkLoop_one_leading]
  have hv1 : hsum ⟨1, 0, 0, 0⟩ = 1 := by decide
  have hv2 : hsum ⟨16, 0, 0, 0⟩ = 16 := by decide
  rw [hv1, hv2]
  have hS1 : ((1 + 1) % U32) % MOD_ADLER = 2 := by decide
  rw [hS1]
  have hS2 : s2Update 0 16 2 1 = 8344 := by decide
  rw [hS2]
  have h0 : 5551 + 1 - BLOCK_SIZE = 0 := by decide
  rw [h0]
  rw [blockLoop_idle 5551 0 5552 [] 2 8344 (by decide)]
  rw [tailLoop_idle _ (5551 + 1) _ _ _ _ (by decide)]

/-- The vector engine on a full zero block followed by a short tail ignores
the tail entirely (the tail loop guard `i < len` is dead) and returns
`(5552 << 16) | 1`. -/
theorem neon_zero_block_tail (t : List Nat) (ht : t.length < 5552) :
    adler32_neon (List.replicate 5552 0 ++ t) = pack 5552 1 := by
  have hlen : (List.replicate 5552 0 ++ t).length = 5552 + t.length := by
    rw [List.length_append, List.length_replicate]
  simp only [adler32_neon, hlen]
  rw [if_neg (by omega), if_pos (by omega)]
  have hf : 5552 + t.length = 5551 + t.length + 1 := by omega
  rw [hf]
  rw [blockLoop_step_tuple (5551 + t.length) (5551 + t.length + 1) 0 _ 1 0
    (vdup 0) (vdup 0) 5552 t 0 (by rw [show BLOCK_SIZE = 5552 from rfl]; omega)
    (chunkLoop_zero_block t)]
  have hv0 : hsum (vdup 0) = 0 := by decide
  rw [hv0]
  have hS1 : ((1 + 0) % U32) % MOD_ADLER = 1 := by decide
  rw [hS1]
  have hS2 : s2Update 0 0 1 0 = 5552 := by decide
  rw [hS2]
  have h0 : 5551 + t.length + 1 - BLOCK_SIZE = t.length := by
    rw [show BLOCK_SIZE = 5552 from rfl]; omega
  rw [h0]
  rw [blockLoop_idle (5551 + t.length) t.length 5552 t 1 5552
    (by rw [show BLOCK_SIZE = 5552 from rfl]; omega)]
  rw [tailLoop_idle _ (5551 + t.length + 1) _ _ _ _ (by
    dsimp only
    omega)]

/-- The vector engine on exactly one zero block. -/
theorem neon_zero_block : adler32_neon (List.replicate 5552 0) = pack 5552 1 := by
  have h := neon_zero_block_tail [] (by decide)
  rwa [List.append_nil] at h

end Adler32.Neon

namespace Adler32

/-- Closed form of the scalar engine: reduce-at-the-end of the plain byte sum
and the positionally weighted sum. -/
theorem simple_closed (data : List Nat) (hbytes : ∀ b ∈ data, b < 256) :
    Simple.adler32_neon data =
      pack ((data.length + wsum data) % MOD_ADLER) ((1 + data.sum) % MOD_ADLER) := by
  simp only [Simple.adler32_neon]
  rw [scalarFold_eq_specFold data (1, 0) hbytes one_lt_mod_adler mod_adler_pos]
  rw [show ((1, 0) : Nat × Nat) = (1 % MOD_ADLER, 0 % MOD_ADLER) by
    rw [Nat.mod_eq_of_lt one_lt_mod_adler, Nat.zero_mod]]
  rw [specFold_eq_rawNFold_mod data 1 0, rawNFold_closed data 1 0]
  simp [Nat.mul_one]

/-- The scalar engine on the 5552-byte buffer `1, 0, …, 0`. -/
theorem simple_one_leading :
    Simple.adler32_neon (1 :: List.replicate 5551 0) = pack 11104 2 := by
  rw [simple_closed _ (by
    intro b hb
    rcases List.mem_cons.1 hb with h | h
    · omega
    · rw [List.eq_of_mem_replicate h]; omega)]
  have hl : (1 :: List.replicate 5551 0).length = 5552 := by
    rw [List.length_cons, List.length_replicate]
  have hs : (1 :: List.replicate 5551 0).sum = 1 := by
    rw [List.sum_cons, sum_replicate_nat]
  have hw : wsum (1 :: List.replicate 5551 0) = 5552 := by
    rw [wsum_cons, wsum_replicate_zero, List.length_replicate]
  rw [hl, hs, hw]
  have e2 : (5552 + 5552) % MOD_ADLER = 11104 := by decide
  have e1 : (1 + 1) % MOD_ADLER = 2 := by decide
  rw [e2, e1]

/-- The scalar engine on a zero block followed by the byte 1. -/
theorem simple_zero_block_one :
    Simple.adler32_neon (List.replicate 5552 0 ++ [1]) = pack 5554 2 := by
  rw [simple_closed _ (by
    intro b hb
    rcases List.mem_append.1 hb with h | h
    · rw [List.eq_of_mem_replicate h]; omega
    · rcases List.mem_singleton.1 h with rfl; omega)]
  have hl : (List.replicate 5552 0 ++ [1]).length = 5553 := by
    rw [List.length_append, List.length_replicate]
    decide
  have hs : (List.replicate 5552 0 ++ [1]).sum = 1 := by
    rw [List.sum_append, sum_replicate_nat]
    decide
  have hw : wsum (List.replicate 5552 0 ++ [1]) = 1 := by
    rw [wsum_append, wsum_replicate_zero, sum_replicate_nat]
    decide
  rw [hl, hs, hw]
  have e2 : (5553 + 1) % MOD_ADLER = 5554 := by decide
  have e1 : (1 + 1) % MOD_ADLER = 2 := by decide
  rw [e2, e1]

end Adler32

namespace Adler32

/-- The block-batched engine agrees with the scalar engine on every byte
input: full blocks reduce at their boundary to the ideal recurrence
(`blockLoop_eq`), the final partial block likewise, and the scalar engine is
the ideal recurrence (`scalarFold_eq_specFold`). -/
theorem block_eq_simple (data : List Nat) (hbytes : ∀ b ∈ data, b < 256) :
    Block.adler32_neon data = Simple.adler32_neon data := by
  by_cases hshort : data.length < 16
  · simp only [Block.adler32_neon, if_pos hshort, Simple.adler32_neon]
  · simp only [Block.adler32_neon, if_neg hshort, Simple.adler32_neon, BLOCK_SIZE]
    have hbl := Block.blockLoop_eq (data.length / 5552) data (1, 0) hbytes one_lt_mod_adler
      mod_adler_pos (by rw [show BLOCK_SIZE = 5552 from rfl]; exact Nat.div_mul_le_self _ _)
    simp only [BLOCK_SIZE] at hbl
    have h1 : (Block.blockLoop (data.length / 5552) (1, 0) data).1 =
        (data.take (data.length / 5552 * 5552)).foldl specStep (1, 0) := by rw [hbl]
    have h2 : (Block.blockLoop (data.length / 5552) (1, 0) data).2 =
        data.drop (data.length / 5552 * 5552) := by rw [hbl]
    rw [h1, h2]
    have hrest : (data.drop (data.length / 5552 * 5552)).length = data.length % 5552 := by
      rw [List.length_drop]
      have := Nat.div_add_mod data.length 5552
      omega
    rw [List.take_of_length_le (le_of_eq hrest)]
    have hFlt := specFold_lt (data.take (data.length / 5552 * 5552)) (1, 0)
      one_lt_mod_adler mod_adler_pos
    have hmod := rawFold_mod_eq_specFold' (data.drop (data.length / 5552 * 5552))
      ((data.take (data.length / 5552 * 5552)).foldl specStep (1, 0))
      (by rw [hrest]; exact Nat.le_of_lt (Nat.mod_lt _ (by omega)))
      (fun b hb => hbytes b (List.mem_of_mem_drop hb)) hFlt.1 hFlt.2
    have hm1 : ((data.drop (data.length / 5552 * 5552)).foldl rawStep
        ((data.take (data.length / 5552 * 5552)).foldl specStep (1, 0))).1 % MOD_ADLER =
        ((data.drop (data.length / 5552 * 5552)).foldl specStep
          ((data.take (data.length / 5552 * 5552)).foldl specStep (1, 0))).1 :=
      congrArg Prod.fst hmod
    have hm2 : ((data.drop (data.length / 5552 * 5552)).foldl rawStep
        ((data.take (data.length / 5552 * 5552)).foldl specStep (1, 0))).2 % MOD_ADLER =
        ((data.drop (data.length / 5552 * 5552)).foldl specStep
          ((data.take (data.length / 5552 * 5552)).foldl specStep (1, 0))).2 :=
      congrArg Prod.snd hmod
    rw [hm1, hm2]
    rw [scalarFold_eq_specFold data (1, 0) hbytes one_lt_mod_adler mod_adler_pos]
    have hsplit := List.foldl_append specStep ((1, 0) : Nat × Nat)
      (data.take (data.length / 5552 * 5552)) (data.drop (data.length / 5552 * 5552))
    rw [List.take_append_drop] at hsplit
    rw [hsplit]

end Adler32

namespace Adler32

/-- C2: the block-batched engine partitions the input into full 5552-byte
chunks plus a final partial chunk, accumulates `s1 += byte; s2 += s1`
unreduced within a chunk, reduces both mod 65521 at each chunk end, and is
bit-identical to the byte-at-a-time scalar engine on every input. -/
theorem C2_block_engine_eq_scalar (data : List Nat) (hbytes : ∀ b ∈ data, b < 256) :
    Block.adler32_neon data = Simple.adler32_neon data :=
  block_eq_simple data hbytes

/-- Witness for C2 at a 17-byte input of bytes 255 (exercising the
partial-chunk path of the block engine). -/
theorem C2_block_engine_eq_scalar_witness :
    Block.adler32_neon (List.replicate 17 255) = Simple.adler32_neon (List.replicate 17 255) :=
  C2_block_engine_eq_scalar _ (fun b hb => by rw [List.eq_of_mem_replicate hb]; omega)

/-- C1 (refuting evaluation for a claim the code violates): the vector engine
is not bit-identical to the scalar engine.  On the 5552-byte buffer
`1, 0, …, 0` the vector engine returns `(8344 << 16) | 2` while the scalar
engine returns `(11104 << 16) | 2`: the groupwise chunk weights and the
reconciliation term of `adler32_neon.c` do not reproduce the recurrence. -/
theorem C1_vector_engine_differs_from_scalar :
    Neon.adler32_neon (1 :: List.replicate 5551 0) ≠
      Simple.adler32_neon (1 :: List.replicate 5551 0) := by
  rw [Neon.neon_one_leading, simple_one_leading]
  decide

/-- C4 (refuting evaluation for a claim the code violates): bytes after the
last full 5552-byte super-block are dropped, not folded by the scalar tail
loop: the guard `while (i < len)` of `adler32_neon.c` line 98 compares the
byte index (at least 5552 after a full block) against the decremented `len`
(the remainder, less than 5552), so the loop is dead.  Appending the byte 1
after a full zero block does not change the vector engine's result, and the
result differs from the scalar engine on the same input. -/
theorem C4_trailing_bytes_after_full_block_are_dropped :
    Neon.adler32_neon (List.replicate 5552 0 ++ [1]) =
        Neon.adler32_neon (List.replicate 5552 0) ∧
      Neon.adler32_neon (List.replicate 5552 0 ++ [1]) ≠
        Simple.adler32_neon (List.replicate 5552 0 ++ [1]) := by
  have h2 := Neon.neon_zero_block_tail [1] (by decide)
  constructor
  · rw [h2, Neon.neon_zero_block]
  · rw [h2, simple_zero_block_one]
    decide

/-- C5 (refuting evaluation for a claim the code violates): within a 16-byte
chunk the code weights byte `k` by the group weight `16 − 4·(k / 4)` (the
multipliers 16, 12, 8, 4 of `adler32_neon.c` lines 73-76 applied to 4-byte
groups), not by the per-position weight `16 − k` the claim states: the byte
at position 1 receives weight 16, not `16 − 1 = 15`. -/
theorem C5_chunk_weights_are_groupwise :
    Neon.hsum (Neon.chunkStep (Neon.vdup 0, Neon.vdup 0)
        [0, 1, 0, 0, 0, 0, 0, 0, 0, 0, 0, 0, 0, 0, 0, 0]).2 = 16 ∧
      (16 : Nat) ≠ 16 - 1 := by
  exact ⟨by decide, by decide⟩

end Adler32

namespace Adler32

/-- C6 counterexample: the claim that line 91 computes
`s2 = (s2 + block_s2 + block_len × s1_entering − block_s1 × (block_len+1)/2) mod 65521`
with `s1_entering` the value of `s1` *before* the super-block is false.  On
the 5552-byte buffer `1, 0, …, 0` the block sums are `block_s1 = 1`,
`block_s2 = 16`, and `s1_entering = 1` (the seed), so the spec's formula
packs to `(2792 << 16) | 2`, but the engine returns `(8344 << 16) | 2`. -/
theorem C6_entering_s1_formula_refuted :
    Neon.adler32_neon (1 :: List.replicate 5551 0) ≠
      pack
        (specS2UpdateEntering 0
          (Neon.hsum (Neon.chunkLoop BLOCK_SIZE BLOCK_SIZE 0 (1 :: List.replicate 5551 0)
            (Neon.vdup 0, Neon.vdup 0)).1.2)
          BLOCK_SIZE 1
          (Neon.hsum (Neon.chunkLoop BLOCK_SIZE BLOCK_SIZE 0 (1 :: List.replicate 5551 0)
            (Neon.vdup 0, Neon.vdup 0)).1.1))
        (((1 + Neon.hsum (Neon.chunkLoop BLOCK_SIZE BLOCK_SIZE 0 (1 :: List.replicate 5551 0)
            (Neon.vdup 0, Neon.vdup 0)).1.1) % U32) % MOD_ADLER) := by
  rw [Neon.neon_one_leading, Neon.chunkLoop_one_leading]
  decide

/-- C6 amended: after a single full super-block (input of length exactly
5552), the vector engine's `s2` is `s2Update`, the line-91 expression
evaluated with the *already updated* `s1` of line 89 (that is,
`s1 = (s1_entering + block_s1) mod 65521`), not with `s1_entering`; the
packed result is exactly `pack s2' s1'` for those values. -/
theorem C6_reconciliation_uses_updated_s1 (data : List Nat) (hlen : data.length = 5552) :
    Neon.adler32_neon data =
      pack
        (Neon.s2Update 0
          (Neon.hsum (Neon.chunkLoop BLOCK_SIZE BLOCK_SIZE 0 data (Neon.vdup 0, Neon.vdup 0)).1.2)
          (((1 + Neon.hsum (Neon.chunkLoop BLOCK_SIZE BLOCK_SIZE 0 data
              (Neon.vdup 0, Neon.vdup 0)).1.1) % U32) % MOD_ADLER)
          (Neon.hsum (Neon.chunkLoop BLOCK_SIZE BLOCK_SIZE 0 data (Neon.vdup 0, Neon.vdup 0)).1.1))
        (((1 + Neon.hsum (Neon.chunkLoop BLOCK_SIZE BLOCK_SIZE 0 data
            (Neon.vdup 0, Neon.vdup 0)).1.1) % U32) % MOD_ADLER) := by
  simp only [Neon.adler32_neon, hlen]
  rw [if_neg (by norm_num), if_pos (by norm_num)]
  rw [show (5552 : Nat) = 5551 + 1 from rfl]
  rw [Neon.blockLoop_step 5551 (5551 + 1) 0 data 1 0 (by decide)]
  have h0 : 5551 + 1 - BLOCK_SIZE = 0 := by decide
  rw [h0]
  rw [Neon.blockLoop_idle 5551 0 _ _ _ _ (by decide)]
  rw [Neon.tailLoop_idle data (5551 + 1) _ _ _ _ (Nat.zero_le _)]

/-- Witness for the amended C6 at the buffer of 5552 bytes of value 3. -/
theorem C6_reconciliation_uses_updated_s1_witness :
    Neon.adler32_neon (List.replicate 5552 3) =
      pack
        (Neon.s2Update 0
          (Neon.hsum (Neon.chunkLoop BLOCK_SIZE BLOCK_SIZE 0 (List.replicate 5552 3)
            (Neon.vdup 0, Neon.vdup 0)).1.2)
          (((1 + Neon.hsum (Neon.chunkLoop BLOCK_SIZE BLOCK_SIZE 0 (List.replicate 5552 3)
              (Neon.vdup 0, Neon.vdup 0)).1.1) % U32) % MOD_ADLER)
          (Neon.hsum (Neon.chunkLoop BLOCK_SIZE BLOCK_SIZE 0 (List.replicate 5552 3)
            (Neon.vdup 0, Neon.vdup 0)).1.1))
        (((1 + Neon.hsum (Neon.chunkLoop BLOCK_SIZE BLOCK_SIZE 0 (List.replicate 5552 3)
            (Neon.vdup 0, Neon.vdup 0)).1.1) % U32) % MOD_ADLER) :=
  C6_reconciliation_uses_updated_s1 (List.replicate 5552 3) (by rw [List.length_replicate])

/-- C7: starting from reduced accumulators, up to 5552 bytes can be
accumulated unreduced without the 32-bit accumulators wrapping (the
`uint32_t` loop equals the unbounded computation and both final values stay
below `2^32`); 5553 bytes of value 255 from reduced accumulators would
exceed `2^32` in `s2`, so 5552 is the maximal safe run; and the block engine
matches the scalar engine on the stress buffer of 5552 bytes of 255. -/
theorem C7_overflow_safe_block_size :
    (∀ (l : List Nat) (s1 s2 : Nat), l.length ≤ 5552 → (∀ b ∈ l, b < 256) →
        s1 < MOD_ADLER → s2 < MOD_ADLER →
        l.foldl rawStep (s1, s2) = l.foldl rawN (s1, s2) ∧
          (l.foldl rawN (s1, s2)).1 < U32 ∧ (l.foldl rawN (s1, s2)).2 < U32) ∧
      U32 ≤ (List.foldl rawN (65520, 65520) (List.replicate 5553 255)).2 ∧
      Block.adler32_neon (List.replicate 5552 255) =
        Simple.adler32_neon (List.replicate 5552 255) := by
  refine ⟨?_, ?_, ?_⟩
  · intro l s1 s2 hlen hbytes h1 h2
    obtain ⟨hb1, hb2⟩ := rawN_bounds l s1 s2 hlen hbytes h1 h2
    refine ⟨rawFold_eq_rawNFold l s1 s2 hb1 hb2, ?_, ?_⟩
    · have hc : (List.foldl rawN (s1, s2) l).1 = s1 + l.sum := by rw [rawNFold_closed]
      rw [hc]
      exact hb1
    · have hc : (List.foldl rawN (s1, s2) l).2 = s2 + l.length * s1 + wsum l := by
        rw [rawNFold_closed]
      rw [hc]
      exact hb2
  · have hc : (List.foldl rawN (65520, 65520) (List.replicate 5553 255)).2 =
        65520 + (List.replicate 5553 255).length * 65520 + wsum (List.replicate 5553 255) := by
      rw [rawNFold_closed]
    rw [hc, List.length_replicate]
    have hw := wsum_replicate 5553 255
    rw [U32_eq]
    omega
  · exact block_eq_simple _ (fun b hb => by rw [List.eq_of_mem_replicate hb]; omega)

/-- Witness for C7: the stress buffer of 5552 bytes of value 255 from the
seed accumulators accumulates without any `2^32` wrap. -/
theorem C7_overflow_safe_block_size_witness :
    List.foldl rawStep (1, 0) (List.replicate 5552 255) =
      List.foldl rawN (1, 0) (List.replicate 5552 255) :=
  (C7_overflow_safe_block_size.1 (List.replicate 5552 255) 1 0
    (by rw [List.length_replicate])
    (fun b hb => by rw [List.eq_of_mem_replicate hb]; omega)
    one_lt_mod_adler mod_adler_pos).1

/-- C8: for every engine and every input, the returned packed value's low 16
bits (`s1`) and high 16 bits (`s2`) are both below the modulus 65521 (they
are naturals, so at least 0 by type). -/
theorem C8_packed_halves_below_modulus (data : List Nat) :
    Simple.adler32_neon data % 65536 < MOD_ADLER ∧
      Simple.adler32_neon data >>> 16 < MOD_ADLER ∧
      Block.adler32_neon data % 65536 < MOD_ADLER ∧
      Block.adler32_neon data >>> 16 < MOD_ADLER ∧
      Neon.adler32_neon data % 65536 < MOD_ADLER ∧
      Neon.adler32_neon data >>> 16 < MOD_ADLER := by
  have hs := scalarFold_lt data (1, 0) one_lt_mod_adler mod_adler_pos
  have hps := pack_parts _ _ hs.2 hs.1
  have hsim1 : Simple.adler32_neon data % 65536 < MOD_ADLER := by
    simp only [Simple.adler32_neon]
    rw [hps.1]
    exact hs.1
  have hsim2 : Simple.adler32_neon data >>> 16 < MOD_ADLER := by
    simp only [Simple.adler32_neon]
    rw [hps.2]
    exact hs.2
  have hblk : Block.adler32_neon data % 65536 < MOD_ADLER ∧
      Block.adler32_neon data >>> 16 < MOD_ADLER := by
    by_cases hshort : data.length < 16
    · constructor
      · simp only [Block.adler32_neon, if_pos hshort]
        rw [hps.1]
        exact hs.1
      · simp only [Block.adler32_neon, if_pos hshort]
        rw [hps.2]
        exact hs.2
    · have hpb := pack_parts _ _
        (Nat.mod_lt ((((Block.blockLoop (data.length / BLOCK_SIZE) (1, 0) data).2.take
          (data.length % BLOCK_SIZE)).foldl rawStep
          (Block.blockLoop (data.length / BLOCK_SIZE) (1, 0) data).1).2) mod_adler_pos)
        (Nat.mod_lt ((((Block.blockLoop (data.length / BLOCK_SIZE) (1, 0) data).2.take
          (data.length % BLOCK_SIZE)).foldl rawStep
          (Block.blockLoop (data.length / BLOCK_SIZE) (1, 0) data).1).1) mod_adler_pos)
      constructor
      · simp only [Block.adler32_neon, if_neg hshort]
        rw [hpb.1]
        exact Nat.mod_lt _ mod_adler_pos
      · simp only [Block.adler32_neon, if_neg hshort]
        rw [hpb.2]
        exact Nat.mod_lt _ mod_adler_pos
  have hneon : Neon.adler32_neon data % 65536 < MOD_ADLER ∧
      Neon.adler32_neon data >>> 16 < MOD_ADLER := by
    by_cases h0 : data.length = 0
    · constructor
      · simp only [Neon.adler32_neon, if_pos h0]
        decide
      · simp only [Neon.adler32_neon, if_pos h0]
        decide
    · by_cases h16 : 16 ≤ data.length
      · have hbl := Neon.blockLoop_lt data.length data.length 0 data 1 0
          one_lt_mod_adler mod_adler_pos
        have htl := Neon.tailLoop_lt data data.length
          (Neon.blockLoop data.length data.length 0 data 1 0).2.1
          (Neon.blockLoop data.length data.length 0 data 1 0).1
          (Neon.blockLoop data.length data.length 0 data 1 0).2.2.1
          (Neon.blockLoop data.length data.length 0 data 1 0).2.2.2 hbl.1 hbl.2
        have hp := pack_parts _ _ htl.2 htl.1
        constructor
        · simp only [Neon.adler32_neon, if_neg h0, if_pos h16]
          rw [hp.1]
          exact htl.1
        · simp only [Neon.adler32_neon, if_neg h0, if_pos h16]
          rw [hp.2]
          exact htl.2
      · have htl := Neon.tailLoop_lt data data.length 0 data.length 1 0
          one_lt_mod_adler mod_adler_pos
        have hp := pack_parts _ _ htl.2 htl.1
        constructor
        · simp only [Neon.adler32_neon, if_neg h0, if_neg h16]
          rw [hp.1]
          exact htl.1
        · simp only [Neon.adler32_neon, if_neg h0, if_neg h16]
          rw [hp.2]
          exact htl.2
  exact ⟨hsim1, hsim2, hblk.1, hblk.2, hneon.1, hneon.2⟩

end Adler32
